import Mathlib

/-!
Verification development for the smart-seo-assistant-ace repository.

The Python sources are shallowly embedded: strings become `List Char`,
floats become `ℚ` (the constants involved are exactly representable),
`dict`s become insertion-ordered association lists, raised exceptions
become `Except`, and the wall clock becomes an explicit `Int` parameter.
External collaborators (the Wikipedia retriever, the LLM generator,
PyJWT, bcrypt, md5) are modelled as explicit oracles or stand-in
functions; all repository logic is translated from the source.
-/

namespace SmartSeo

/-! ## Python string primitives -/

/-- Model of Python `str.lower()` (ASCII case folding). -/
def pyLower (s : List Char) : List Char := s.map Char.toLower

/-- Model of the Python substring test `needle in hay`: scans every suffix
of `hay` for `needle` as a prefix. -/
def listContainsSub (needle : List Char) : List Char → Bool
  | [] => needle.isEmpty
  | c :: t => needle.isPrefixOf (c :: t) || listContainsSub needle t

/-- Characters removed by Python `str.strip()` with no argument. -/
def pyIsSpace (c : Char) : Bool :=
  c = ' ' || c = '\t' || c = '\n' || c = '\r' || c = '\x0b' || c = '\x0c'

/-- Model of Python `str.strip()`: drop whitespace from both ends. -/
def pyStrip (s : List Char) : List Char :=
  ((s.dropWhile pyIsSpace).reverse.dropWhile pyIsSpace).reverse

/-- Model of the Python slice `s[a:b]` for `0 ≤ a ≤ b` (clamped at the
ends, empty when `b ≤ a`). -/
def pySlice (s : List Char) (a b : Nat) : List Char := (s.take b).drop a

/-- Model of Python `s.rfind(' ', a, b)`: the largest index `i` with
`a ≤ i < b` holding a space, as an `Option` (Python returns -1 for none). -/
def pyRfindSpace (s : List Char) (a b : Nat) : Option Nat :=
  ((List.range s.length).filter
    (fun i => decide (a ≤ i) && decide (i < b) && (s[i]? == some ' '))).getLast?

/-- `List.isPrefixOf` agrees with the mathematical prefix relation. -/
theorem isPrefixOf_eq_true_iff (n h : List Char) :
    n.isPrefixOf h = true ↔ ∃ t, h = n ++ t := by
  induction n generalizing h with
  | nil => simp [List.isPrefixOf]
  | cons a as ih =>
    cases h with
    | nil =>
      simp [List.isPrefixOf]
    | cons b bs =>
      simp only [List.isPrefixOf, Bool.and_eq_true, beq_iff_eq, ih, List.cons_append,
        List.cons.injEq]
      constructor
      · rintro ⟨rfl, t, rfl⟩; exact ⟨t, rfl, rfl⟩
      · rintro ⟨t, rfl, rfl⟩; exact ⟨rfl, t, rfl⟩

/-- The substring scan agrees with the mathematical infix relation. -/
theorem listContainsSub_iff (n h : List Char) :
    listContainsSub n h = true ↔ ∃ s t, h = s ++ n ++ t := by
  induction h with
  | nil =>
    simp only [listContainsSub, List.isEmpty_iff]
    constructor
    · rintro rfl; exact ⟨[], [], rfl⟩
    · rintro ⟨s, t, hst⟩
      obtain ⟨h1, -⟩ := List.append_eq_nil.mp hst.symm
      exact (List.append_eq_nil.mp h1).2
  | cons c tl ih =>
    simp only [listContainsSub, Bool.or_eq_true, isPrefixOf_eq_true_iff, ih]
    constructor
    · rintro (⟨t, ht⟩ | ⟨s, t, ht⟩)
      · exact ⟨[], t, by simpa using ht⟩
      · exact ⟨c :: s, t, by simp [ht]⟩
    · rintro ⟨s, t, ht⟩
      cases s with
      | nil => exact Or.inl ⟨t, by simpa using ht⟩
      | cons s0 s' =>
        right
        obtain ⟨rfl, htl⟩ := List.cons.injEq .. ▸ ht
        exact ⟨s', t, htl⟩

/-! ## C8: search-intent classification (`DataRetriever.analyze_search_intent`) -/

/-- Search intent classifications (entity/__init__.py). -/
inductive SearchIntent
  | INFORMATIONAL
  | NAVIGATIONAL
  | TRANSACTIONAL
  | COMMERCIAL
deriving DecidableEq, Repr

/-- Transactional indicator words from `analyze_search_intent`. -/
def transactional_words : List (List Char) :=
  ["buy".data, "purchase".data, "order".data, "price".data, "cost".data,
   "cheap".data, "discount".data, "deal".data]

/-- Commercial investigation indicator words. -/
def commercial_words : List (List Char) :=
  ["best".data, "top".data, "review".data, "compare".data, "vs".data,
   "alternative".data, "recommendation".data]

/-- Navigational indicator words. -/
def navigational_words : List (List Char) :=
  ["login".data, "sign in".data, "website".data, "official".data]

/-- How-to and tutorial indicator words. -/
def how_to_words : List (List Char) :=
  ["how to".data, "tutorial".data, "guide".data, "learn".data, "step by step".data]

/-- Question indicator words. -/
def question_words : List (List Char) :=
  ["what".data, "why".data, "when".data, "where".data, "who".data,
   "which".data, "how".data]

/-- Model of `DataRetriever.analyze_search_intent`: classify the
lowercased keyword by fixed precedence of word lists, paired with the
explanation string of the branch taken. -/
def analyze_search_intent (keyword : List Char) : SearchIntent × String :=
  let keyword_lower := pyLower keyword
  if transactional_words.any (fun w => listContainsSub w keyword_lower) then
    (SearchIntent.TRANSACTIONAL, "User appears to be ready to make a purchase or transaction")
  else if commercial_words.any (fun w => listContainsSub w keyword_lower) then
    (SearchIntent.COMMERCIAL, "User is researching options before making a decision")
  else if navigational_words.any (fun w => listContainsSub w keyword_lower) then
    (SearchIntent.NAVIGATIONAL, "User is looking for a specific website or page")
  else if how_to_words.any (fun w => listContainsSub w keyword_lower) then
    (SearchIntent.INFORMATIONAL, "User wants to learn how to do something")
  else if question_words.any (fun w => w.isPrefixOf keyword_lower) then
    (SearchIntent.INFORMATIONAL, "User is seeking information or answers")
  else
    (SearchIntent.INFORMATIONAL, "General information seeking intent")

/-- Claim-side predicate: the text contains some word of `ws` as a
contiguous substring. -/
def ContainsAnyOf (ws : List (List Char)) (l : List Char) : Prop :=
  ∃ w ∈ ws, ∃ s t, l = s ++ w ++ t

/-- Claim-side predicate: the text starts with some word of `ws`. -/
def StartsWithAnyOf (ws : List (List Char)) (l : List Char) : Prop :=
  ∃ w ∈ ws, ∃ t, l = w ++ t

/-- The executable any-word scan decides `ContainsAnyOf`. -/
theorem any_containsSub_iff (ws : List (List Char)) (l : List Char) :
    (ws.any (fun w => listContainsSub w l) = true) ↔ ContainsAnyOf ws l := by
  simp [List.any_eq_true, ContainsAnyOf, listContainsSub_iff]

/-- The executable any-word prefix scan decides `StartsWithAnyOf`. -/
theorem any_isPrefixOf_iff (ws : List (List Char)) (l : List Char) :
    (ws.any (fun w => w.isPrefixOf l) = true) ↔ StartsWithAnyOf ws l := by
  simp only [List.any_eq_true, StartsWithAnyOf, isPrefixOf_eq_true_iff]

/-- C8: `analyze_search_intent` is total over strings and classifies the
lowercased keyword by fixed precedence: TRANSACTIONAL on a transactional
word, else COMMERCIAL on a commercial word, else NAVIGATIONAL on a
navigational word, else INFORMATIONAL on a how-to phrase or a leading
question word, else INFORMATIONAL by default — each branch paired with
its fixed explanation string. -/
theorem c8_analyze_search_intent_spec (keyword : List Char) :
    (analyze_search_intent keyword
        = (SearchIntent.TRANSACTIONAL, "User appears to be ready to make a purchase or transaction")
      ↔ ContainsAnyOf transactional_words (pyLower keyword))
    ∧ (analyze_search_intent keyword
        = (SearchIntent.COMMERCIAL, "User is researching options before making a decision")
      ↔ ¬ContainsAnyOf transactional_words (pyLower keyword)
        ∧ ContainsAnyOf commercial_words (pyLower keyword))
    ∧ (analyze_search_intent keyword
        = (SearchIntent.NAVIGATIONAL, "User is looking for a specific website or page")
      ↔ ¬ContainsAnyOf transactional_words (pyLower keyword)
        ∧ ¬ContainsAnyOf commercial_words (pyLower keyword)
        ∧ ContainsAnyOf navigational_words (pyLower keyword))
    ∧ (analyze_search_intent keyword
        = (SearchIntent.INFORMATIONAL, "User wants to learn how to do something")
      ↔ ¬ContainsAnyOf transactional_words (pyLower keyword)
        ∧ ¬ContainsAnyOf commercial_words (pyLower keyword)
        ∧ ¬ContainsAnyOf navigational_words (pyLower keyword)
        ∧ ContainsAnyOf how_to_words (pyLower keyword))
    ∧ (analyze_search_intent keyword
        = (SearchIntent.INFORMATIONAL, "User is seeking information or answers")
      ↔ ¬ContainsAnyOf transactional_words (pyLower keyword)
        ∧ ¬ContainsAnyOf commercial_words (pyLower keyword)
        ∧ ¬ContainsAnyOf navigational_words (pyLower keyword)
        ∧ ¬ContainsAnyOf how_to_words (pyLower keyword)
        ∧ StartsWithAnyOf question_words (pyLower keyword))
    ∧ (analyze_search_intent keyword
        = (SearchIntent.INFORMATIONAL, "General information seeking intent")
      ↔ ¬ContainsAnyOf transactional_words (pyLower keyword)
        ∧ ¬ContainsAnyOf commercial_words (pyLower keyword)
        ∧ ¬ContainsAnyOf navigational_words (pyLower keyword)
        ∧ ¬ContainsAnyOf how_to_words (pyLower keyword)
        ∧ ¬StartsWithAnyOf question_words (pyLower keyword))
    ∧ ((analyze_search_intent keyword).1 = SearchIntent.INFORMATIONAL
      ↔ ¬ContainsAnyOf transactional_words (pyLower keyword)
        ∧ ¬ContainsAnyOf commercial_words (pyLower keyword)
        ∧ ¬ContainsAnyOf navigational_words (pyLower keyword)) := by
  simp only [← any_containsSub_iff, ← any_isPrefixOf_iff]
  unfold analyze_search_intent
  dsimp only
  split_ifs with h1 h2 h3 h4 h5 <;>
    simp_all [Prod.ext_iff]

/-! ## C7: `retry_with_backoff` (smart_seo_assistant_ace/utils) -/

/-- Model of the loop inside the wrapper produced by
`retry_with_backoff`: `f j` is the outcome of the (0-based) attempt `j`
of the wrapped call, `left` is the number of retries still allowed
(`max_retries - attempt`). Returns the final outcome, the number of
invocations of `f`, and the list of sleep durations (seconds, as exact
rationals standing for the Python floats `backoff_factor * 2 ** attempt`). -/
def retryLoop {E A : Type} (f : Nat → Except E A) (b : ℚ) :
    Nat → Nat → Except E A × Nat × List ℚ
  | attempt, 0 =>
    match f attempt with
    | .ok v => (.ok v, 1, [])
    | .error e => (.error e, 1, [])
  | attempt, left' + 1 =>
    match f attempt with
    | .ok v => (.ok v, 1, [])
    | .error _ =>
      let r := retryLoop f b (attempt + 1) left'
      (r.1, r.2.1 + 1, b * 2 ^ attempt :: r.2.2)

/-- Model of `retry_with_backoff(max_retries, backoff_factor)` applied to
a function whose attempts have the outcomes `f 0, f 1, …`. -/
def retry_with_backoff {E A : Type} (max_retries : Nat) (b : ℚ)
    (f : Nat → Except E A) : Except E A × Nat × List ℚ :=
  retryLoop f b 0 max_retries

theorem retryLoop_calls_le {E A : Type} (f : Nat → Except E A) (b : ℚ) :
    ∀ left attempt, (retryLoop f b attempt left).2.1 ≤ left + 1 := by
  intro left
  induction left with
  | zero =>
    intro attempt
    unfold retryLoop
    cases f attempt <;> simp
  | succ left' ih =>
    intro attempt
    unfold retryLoop
    cases f attempt with
    | ok v => simp
    | error e =>
      have := ih (attempt + 1)
      simp only
      omega

theorem range_succ_pow_map (b : ℚ) (attempt k : Nat) :
    (List.range (k + 1)).map (fun j => b * 2 ^ (attempt + j))
      = b * 2 ^ attempt :: (List.range k).map (fun j => b * 2 ^ (attempt + 1 + j)) := by
  rw [List.range_succ_eq_map, List.map_cons, List.map_map]
  simp only [Nat.add_zero]
  refine congrArg _ (List.map_congr_left ?_)
  intro j hj
  have h : attempt + (j + 1) = attempt + 1 + j := by omega
  simp [Function.comp, h]

theorem retryLoop_first_ok {E A : Type} (f : Nat → Except E A) (b : ℚ) :
    ∀ left attempt k v, k ≤ left →
      (∀ j, j < k → ∃ e, f (attempt + j) = .error e) →
      f (attempt + k) = .ok v →
      retryLoop f b attempt left
        = (.ok v, k + 1, (List.range k).map (fun j => b * 2 ^ (attempt + j))) := by
  intro left
  induction left with
  | zero =>
    intro attempt k v hk hfail hok
    interval_cases k
    unfold retryLoop
    simp only [Nat.add_zero] at hok
    rw [hok]
    simp
  | succ left' ih =>
    intro attempt k v hk hfail hok
    cases k with
    | zero =>
      unfold retryLoop
      simp only [Nat.add_zero] at hok
      rw [hok]
      simp
    | succ k' =>
      obtain ⟨e0, he0⟩ := hfail 0 (Nat.succ_pos k')
      unfold retryLoop
      simp only [Nat.add_zero] at he0
      rw [he0]
      have hrec := ih (attempt + 1) k' v (by omega)
        (fun j hj => by
          have := hfail (j + 1) (by omega)
          simpa [Nat.add_assoc, Nat.add_comm 1 j] using this)
        (by simpa [Nat.add_assoc, Nat.add_comm 1 k'] using hok)
      simp only [hrec, range_succ_pow_map]

theorem retryLoop_all_fail {E A : Type} (f : Nat → Except E A) (b : ℚ) :
    ∀ left attempt e,
      (∀ j, j < left → ∃ e', f (attempt + j) = .error e') →
      f (attempt + left) = .error e →
      retryLoop f b attempt left
        = (.error e, left + 1, (List.range left).map (fun j => b * 2 ^ (attempt + j))) := by
  intro left
  induction left with
  | zero =>
    intro attempt e hfail hlast
    unfold retryLoop
    simp only [Nat.add_zero] at hlast
    rw [hlast]
    simp
  | succ left' ih =>
    intro attempt e hfail hlast
    obtain ⟨e0, he0⟩ := hfail 0 (Nat.succ_pos left')
    unfold retryLoop
    simp only [Nat.add_zero] at he0
    rw [he0]
    have hrec := ih (attempt + 1) e
      (fun j hj => by
        have := hfail (j + 1) (by omega)
        simpa [Nat.add_assoc, Nat.add_comm 1 j] using this)
      (by simpa [Nat.add_assoc, Nat.add_comm 1 left'] using hlast)
    simp only [hrec, range_succ_pow_map]

theorem retryLoop_error_iff {E A : Type} (f : Nat → Except E A) (b : ℚ) :
    ∀ left attempt,
      (∃ e, (retryLoop f b attempt left).1 = .error e)
        ↔ (∀ j, j ≤ left → ∃ e, f (attempt + j) = .error e) := by
  intro left
  induction left with
  | zero =>
    intro attempt
    unfold retryLoop
    cases hf : f attempt with
    | ok v =>
      simp only
      constructor
      · rintro ⟨e, he⟩; cases he
      · intro h
        obtain ⟨e, he⟩ := h 0 (Nat.le_refl 0)
        rw [Nat.add_zero, hf] at he
        cases he
    | error e =>
      simp only
      constructor
      · intro _ j hj
        interval_cases j
        exact ⟨e, by simpa using hf⟩
      · intro _
        exact ⟨e, rfl⟩
  | succ left' ih =>
    intro attempt
    unfold retryLoop
    cases hf : f attempt with
    | ok v =>
      simp only
      constructor
      · rintro ⟨e, he⟩; cases he
      · intro h
        obtain ⟨e, he⟩ := h 0 (Nat.zero_le _)
        rw [Nat.add_zero, hf] at he
        cases he
    | error e =>
      simp only
      rw [ih (attempt + 1)]
      constructor
      · intro h j hj
        cases j with
        | zero => exact ⟨e, by simpa using hf⟩
        | succ j' =>
          have := h j' (by omega)
          simpa [Nat.add_assoc, Nat.add_comm 1 j'] using this
      · intro h j hj
        have := h (j + 1) (by omega)
        simpa [Nat.add_assoc, Nat.add_comm 1 j] using this

/-- C7: the wrapper invokes the wrapped function at most `n + 1` times;
it returns the value of the first non-raising invocation, having slept
`b * 2^j` seconds after each failed attempt `j` before it; it re-raises
the final attempt's exception exactly when all `n + 1` invocations
raise. -/
theorem c7_retry_with_backoff_spec {E A : Type} (n : Nat) (b : ℚ)
    (f : Nat → Except E A) :
    ((retry_with_backoff n b f).2.1 ≤ n + 1)
    ∧ (∀ k v, k ≤ n → (∀ j, j < k → ∃ e, f j = .error e) → f k = .ok v →
        retry_with_backoff n b f
          = (.ok v, k + 1, (List.range k).map (fun j => b * 2 ^ j)))
    ∧ (∀ e, (∀ j, j < n → ∃ e', f j = .error e') → f n = .error e →
        retry_with_backoff n b f
          = (.error e, n + 1, (List.range n).map (fun j => b * 2 ^ j)))
    ∧ ((∃ e, (retry_with_backoff n b f).1 = .error e)
        ↔ (∀ j, j ≤ n → ∃ e, f j = .error e)) := by
  refine ⟨retryLoop_calls_le f b n 0, ?_, ?_, ?_⟩
  · intro k v hk hfail hok
    simpa using retryLoop_first_ok f b n 0 k v hk (by simpa using hfail) (by simpa using hok)
  · intro e hfail hlast
    simpa using retryLoop_all_fail f b n 0 e (by simpa using hfail) (by simpa using hlast)
  · simpa using retryLoop_error_iff f b n 0

/-- Witness for C7 at a concrete input: the attempt sequence fails once
then succeeds with value 7; the wrapper returns 7 after 2 invocations
and a single sleep of `b * 2^0` seconds. -/
theorem c7_retry_with_backoff_witness :
    retry_with_backoff 2 (1 : ℚ)
        (fun j => if j < 1 then (Except.error "boom" : Except String Nat) else .ok 7)
      = (.ok 7, 1 + 1, (List.range 1).map (fun j => (1 : ℚ) * 2 ^ j)) :=
  (c7_retry_with_backoff_spec 2 1 _).2.1 1 7 (by omega)
    (fun j hj => ⟨"boom", by simp [Nat.lt_one_iff.mp hj]⟩)
    (by simp)

/-! ## C10: `chunk_text` (smart_seo_assistant_ace/utils) -/

/-- The slice end of one `chunk_text` loop iteration:
`end = start + max_length`, moved back to the last space strictly after
`start` when the tentative end lies inside the text (`rfind` returning
-1 or an index `≤ start` leaves the end unchanged). -/
def chunkEnd (text : List Char) (max_length start : Nat) : Nat :=
  let end0 := start + max_length
  if end0 < text.length then
    match pyRfindSpace text start end0 with
    | some last_space => if start < last_space then last_space else end0
    | none => end0
  else end0

/-- The updated loop variable: `start = max(start + 1, end - overlap)`
(the Python negative `end - overlap` loses to `start + 1` in the `max`,
matching truncated `Nat` subtraction). -/
def chunkNextStart (text : List Char) (max_length overlap start : Nat) : Nat :=
  max (start + 1) (chunkEnd text max_length start - overlap)

/-- The candidate chunk of one iteration: `text[start:end].strip()`. -/
def chunkPiece (text : List Char) (max_length start : Nat) : List Char :=
  pyStrip (pySlice text start (chunkEnd text max_length start))

theorem chunkNextStart_gt (text : List Char) (max_length overlap start : Nat) :
    start < chunkNextStart text max_length overlap start :=
  Nat.lt_of_lt_of_le (Nat.lt_succ_self start) (Nat.le_max_left _ _)

/-- The `while start < len(text)` loop of `chunk_text`; terminates
because the loop variable strictly increases. -/
def chunkLoop (text : List Char) (max_length overlap : Nat) (start : Nat) :
    List (List Char) :=
  if _h : start < text.length then
    let chunk := chunkPiece text max_length start
    let rest := chunkLoop text max_length overlap (chunkNextStart text max_length overlap start)
    if chunk.isEmpty then rest else chunk :: rest
  else []
termination_by text.length - start
decreasing_by
  have hgt := chunkNextStart_gt text max_length overlap start
  omega

/-- Model of `chunk_text`: `[]` for empty text, the whole text as a
single chunk when it fits within `max_length`, otherwise the loop. -/
def chunk_text (text : List Char) (max_length overlap : Nat) : List (List Char) :=
  if text.isEmpty then []
  else if text.length ≤ max_length then [text]
  else chunkLoop text max_length overlap 0

/-- Fuel-indexed rendition of the `chunk_text` loop: `none` when the
fuel is exhausted before the loop condition fails, so that termination
of the loop within a fuel bound is an explicit theorem. -/
def chunkLoopFuel (text : List Char) (max_length overlap : Nat) :
    Nat → Nat → Option (List (List Char))
  | 0, _ => none
  | fuel + 1, start =>
    if start < text.length then
      match chunkLoopFuel text max_length overlap fuel
          (chunkNextStart text max_length overlap start) with
      | none => none
      | some rest =>
        let chunk := chunkPiece text max_length start
        some (if chunk.isEmpty then rest else chunk :: rest)
    else some []

theorem pyRfindSpace_bounds {s : List Char} {a b i : Nat}
    (h : pyRfindSpace s a b = some i) : a ≤ i ∧ i < b := by
  have hmem := List.mem_of_getLast?_eq_some h
  rw [List.mem_filter] at hmem
  have := hmem.2
  simp only [Bool.and_eq_true, decide_eq_true_eq] at this
  exact ⟨this.1.1, this.1.2⟩

theorem chunkEnd_le (text : List Char) (max_length start : Nat) :
    chunkEnd text max_length start ≤ start + max_length := by
  unfold chunkEnd
  dsimp only
  split
  · split
    · rename_i last_space hfind
      have := pyRfindSpace_bounds hfind
      split <;> omega
    · exact Nat.le_refl _
  · exact Nat.le_refl _

theorem pyStrip_length_le (s : List Char) : (pyStrip s).length ≤ s.length := by
  unfold pyStrip
  calc ((s.dropWhile pyIsSpace).reverse.dropWhile pyIsSpace).reverse.length
      = ((s.dropWhile pyIsSpace).reverse.dropWhile pyIsSpace).length := List.length_reverse _
    _ ≤ (s.dropWhile pyIsSpace).reverse.length :=
        (List.dropWhile_sublist pyIsSpace).length_le
    _ = (s.dropWhile pyIsSpace).length := List.length_reverse _
    _ ≤ s.length := (List.dropWhile_sublist pyIsSpace).length_le

theorem pySlice_length_le (s : List Char) (a b : Nat) :
    (pySlice s a b).length ≤ b - a := by
  unfold pySlice
  rw [List.length_drop, List.length_take]
  omega

theorem chunkPiece_length_le (text : List Char) (max_length start : Nat) :
    (chunkPiece text max_length start).length ≤ max_length := by
  unfold chunkPiece
  calc (pyStrip (pySlice text start (chunkEnd text max_length start))).length
      ≤ (pySlice text start (chunkEnd text max_length start)).length :=
        pyStrip_length_le _
    _ ≤ chunkEnd text max_length start - start := pySlice_length_le _ _ _
    _ ≤ max_length := by have := chunkEnd_le text max_length start; omega

theorem chunkLoop_chunks (text : List Char) (max_length overlap : Nat) :
    ∀ n start, text.length - start ≤ n →
      ∀ chunk ∈ chunkLoop text max_length overlap start,
        chunk ≠ [] ∧ chunk.length ≤ max_length := by
  intro n
  induction n with
  | zero =>
    intro start h chunk hc
    rw [chunkLoop] at hc
    rw [dif_neg (by omega)] at hc
    cases hc
  | succ n ih =>
    intro start h chunk hc
    rw [chunkLoop] at hc
    by_cases hlt : start < text.length
    · rw [dif_pos hlt] at hc
      have hnext := chunkNextStart_gt text max_length overlap start
      have hrec := ih (chunkNextStart text max_length overlap start) (by omega)
      simp only at hc
      split at hc
      · exact hrec chunk hc
      · rename_i hne
        rcases List.mem_cons.mp hc with rfl | hmem
        · exact ⟨by simpa [List.isEmpty_iff] using hne, chunkPiece_length_le _ _ _⟩
        · exact hrec chunk hmem
    · rw [dif_neg hlt] at hc
      cases hc

theorem chunkLoopFuel_eq_some (text : List Char) (max_length overlap : Nat) :
    ∀ fuel start, text.length - start < fuel →
      chunkLoopFuel text max_length overlap fuel start
        = some (chunkLoop text max_length overlap start) := by
  intro fuel
  induction fuel with
  | zero => intro start h; omega
  | succ fuel ih =>
    intro start h
    rw [chunkLoopFuel, chunkLoop]
    by_cases hlt : start < text.length
    · have hnext := chunkNextStart_gt text max_length overlap start
      rw [if_pos hlt, dif_pos hlt,
        ih (chunkNextStart text max_length overlap start) (by omega)]
    · rw [if_neg hlt, dif_neg hlt]

/-- C10: the `chunk_text` loop strictly increases its start index each
iteration, hence terminates — the fueled loop finishes within
`length + 1` iterations and agrees with the recursive model — and every
returned chunk is non-empty with length at most `max_length`. -/
theorem c10_chunk_text_spec (text : List Char) (max_length overlap : Nat)
    (_hml : 1 ≤ max_length) :
    (∀ start, start < chunkNextStart text max_length overlap start)
    ∧ chunkLoopFuel text max_length overlap (text.length + 1) 0
        = some (chunkLoop text max_length overlap 0)
    ∧ ∀ chunk ∈ chunk_text text max_length overlap,
        chunk ≠ [] ∧ chunk.length ≤ max_length := by
  refine ⟨fun start => chunkNextStart_gt text max_length overlap start,
    chunkLoopFuel_eq_some text max_length overlap (text.length + 1) 0 (by omega), ?_⟩
  intro chunk hc
  unfold chunk_text at hc
  split at hc
  · cases hc
  · split at hc
    · rename_i hne hfit
      rcases List.mem_singleton.mp hc with rfl
      exact ⟨by simpa [List.isEmpty_iff] using hne, hfit⟩
    · exact chunkLoop_chunks text max_length overlap text.length 0 (by omega) chunk hc

/-- Witness for C10 at a concrete input: `max_length = 3 ≥ 1` and the
conclusion holds for the text "ab cd". -/
theorem c10_chunk_text_witness :
    (∀ start, start < chunkNextStart "ab cd".data 3 1 start)
    ∧ chunkLoopFuel "ab cd".data 3 1 ("ab cd".data.length + 1) 0
        = some (chunkLoop "ab cd".data 3 1 0)
    ∧ ∀ chunk ∈ chunk_text "ab cd".data 3 1,
        chunk ≠ [] ∧ chunk.length ≤ 3 :=
  c10_chunk_text_spec "ab cd".data 3 1 (by omega)

/-! ## C5 and C6: the pipeline context cache (`SEOAssistantPipeline`) -/

/-- Wikipedia search result record (entity/__init__.py); the float
relevance score is modelled as a rational. -/
structure WikipediaResult where
  title : List Char := []
  snippet : List Char := []
  url : List Char := []
  relevance_score : ℚ := 0
deriving DecidableEq, Repr

/-- The `SEOContext` record (entity/__init__.py). -/
structure SEOContext where
  keyword : List Char
  user_goal : List Char := []
  search_intent : List Char := []
  related_keywords : List (List Char) := []
  wikipedia_data : List WikipediaResult := []
  content_opportunities : List (List Char) := []
  competitive_landscape : List Char := []
  user_questions : List (List Char) := []
  retrieval_timestamp : Int := 0
deriving DecidableEq, Repr

/-- Modelled stand-in for `hashlib.md5(x).hexdigest()`: the cache claims
depend only on which input string is hashed, never on the digest
function, so any function serves. -/
def md5hex (s : List Char) : List Char := s

/-- Model of `generate_cache_key` (utils): the digest of
`f"{keyword.lower()}_{user_goal.lower()}"`. -/
def generate_cache_key (keyword user_goal : List Char) : List Char :=
  md5hex (pyLower keyword ++ "_".data ++ pyLower user_goal)

/-- One context-cache entry: key, cached context and store timestamp. -/
abbrev CacheEntry := List Char × SEOContext × Int

/-- The context cache: a Python dict modelled as an insertion-ordered
association list. `Option Cache` distinguishes `None` (caching
disabled) from an empty dict. -/
abbrev Cache := List CacheEntry

/-- Python `d.get(k)` on the modelled dict. -/
def dictGet (c : Cache) (k : List Char) : Option (SEOContext × Int) :=
  (c.find? (fun e => decide (e.1 = k))).map (fun e => e.2)

/-- Python `del d[k]` on the modelled dict. -/
def dictDelete (c : Cache) (k : List Char) : Cache :=
  c.filter (fun e => !(decide (e.1 = k)))

/-- Python `d[k] = v`: update in place when the key exists (keeping its
position in insertion order), otherwise append. -/
def dictInsert (c : Cache) (k : List Char) (v : SEOContext × Int) : Cache :=
  if c.any (fun e => decide (e.1 = k)) then
    c.map (fun e => if e.1 = k then (k, v) else e)
  else c ++ [(k, v)]

/-- Python `min(d.keys(), key=lambda k: d[k][1])`: the first entry (in
insertion order) attaining the minimal timestamp. -/
def minByTimestamp : Cache → Option CacheEntry
  | [] => none
  | e :: t => some (t.foldl (fun best x => if x.2.2 < best.2.2 then x else best) e)

/-- Model of `SEOAssistantPipeline._get_cached_context`: returns the
cache hit (if any) and the updated cache. Note `if not
self.context_cache` is also true of an *empty* dict, not only of
`None`. -/
def _get_cached_context (cache : Option Cache) (cache_ttl now : Int)
    (keyword user_goal : List Char) : Option SEOContext × Option Cache :=
  match cache with
  | none => (none, none)
  | some c =>
    if c.isEmpty then (none, some c)
    else
      let cache_key := generate_cache_key keyword user_goal
      match dictGet c cache_key with
      | none => (none, some c)
      | some (context, timestamp) =>
        if now - timestamp < cache_ttl then (some context, some c)
        else (none, some (dictDelete c cache_key))

/-- Model of `SEOAssistantPipeline._cache_context`. The guard `if not
self.context_cache: return` fires on an *empty* dict as well, so an
empty (enabled) cache is returned unchanged — nothing is ever stored in
it. Past the guard: store under the key of `context.keyword`, then if
the dict now exceeds 100 entries delete the key with the smallest
timestamp. -/
def _cache_context (cache : Option Cache) (context : SEOContext)
    (user_goal : List Char) (now : Int) : Option Cache :=
  match cache with
  | none => none
  | some c =>
    if c.isEmpty then some c
    else
      let cache_key := generate_cache_key context.keyword user_goal
      let c' := dictInsert c cache_key (context, now)
      if 100 < c'.length then
        match minByTimestamp c' with
        | some oldest => some (dictDelete c' oldest.1)
        | none => some c'
      else some c'

/-- Model of `SEOAssistantPipeline.retrieve_context`; `retr` is the data
retriever oracle (`DataRetriever.get_comprehensive_context`). The
returned `Bool` records whether the data retriever was invoked. -/
def retrieve_context (retr : List Char → List Char → SEOContext)
    (cache : Option Cache) (cache_ttl now : Int)
    (keyword user_goal : List Char) : SEOContext × Option Cache × Bool :=
  match _get_cached_context cache cache_ttl now keyword user_goal with
  | (some cached_context, cache') => (cached_context, cache', false)
  | (none, cache') =>
    let context := retr keyword user_goal
    (context, _cache_context cache' context user_goal now, true)

/-- Number of entries of a possibly-disabled cache. -/
def cacheLen : Option Cache → Nat
  | none => 0
  | some c => c.length

/-- C5 (code bug): with the cache enabled and holding exactly one entry,
aged exactly `cache_ttl`, under the queried key, `retrieve_context`
deletes the expired entry and invokes the data retriever — but the
fresh context is NOT cached in its place: `_cache_context` hits its
falsy-empty-dict guard and the cache stays empty forever after. -/
theorem c5_expired_entry_not_recached :
    retrieve_context (fun kw goal => { keyword := kw, user_goal := goal })
        (some [(generate_cache_key "seo".data [], { keyword := "seo".data }, 0)])
        3600 3600 "seo".data []
      = ({ keyword := "seo".data, user_goal := [] }, some [], true) := by
  rfl

theorem length_filter_lt_of_mem {α : Type} {l : List α} {p : α → Bool} {x : α}
    (hx : x ∈ l) (hpx : p x = false) : (l.filter p).length < l.length := by
  induction l with
  | nil => cases hx
  | cons a t ih =>
    rcases List.mem_cons.mp hx with rfl | hmem
    · rw [List.filter_cons_of_neg (by simp [hpx])]
      exact Nat.lt_succ_of_le (List.length_filter_le p t)
    · cases hp : p a with
      | true =>
        rw [List.filter_cons_of_pos (by simp [hp])]
        exact Nat.succ_lt_succ (ih hmem)
      | false =>
        rw [List.filter_cons_of_neg (by simp [hp])]
        exact Nat.lt_succ_of_lt (ih hmem)

theorem foldlMin_spec (t : List CacheEntry) (e : CacheEntry) :
    (t.foldl (fun best x => if x.2.2 < best.2.2 then x else best) e) ∈ e :: t
    ∧ (t.foldl (fun best x => if x.2.2 < best.2.2 then x else best) e).2.2 ≤ e.2.2
    ∧ ∀ x ∈ t,
        (t.foldl (fun best x => if x.2.2 < best.2.2 then x else best) e).2.2 ≤ x.2.2 := by
  induction t generalizing e with
  | nil =>
    exact ⟨List.mem_singleton.mpr rfl, le_refl _, by intro x hx; cases hx⟩
  | cons a t ih =>
    simp only [List.foldl_cons]
    obtain ⟨hmem, hbest, hall⟩ := ih (if a.2.2 < e.2.2 then a else e)
    refine ⟨?_, ?_, ?_⟩
    · rcases List.mem_cons.mp hmem with heq | hmem'
      · rw [heq]
        split
        · exact List.mem_cons_of_mem _ (List.mem_cons_self _ _)
        · exact List.mem_cons_self _ _
      · exact List.mem_cons_of_mem _ (List.mem_cons_of_mem _ hmem')
    · refine le_trans hbest ?_
      split <;> omega
    · intro x hx
      rcases List.mem_cons.mp hx with rfl | hx'
      · refine le_trans hbest ?_
        split <;> omega
      · exact hall x hx'

theorem minByTimestamp_spec {c : Cache} {m : CacheEntry}
    (h : minByTimestamp c = some m) : m ∈ c ∧ ∀ x ∈ c, m.2.2 ≤ x.2.2 := by
  match c with
  | [] => cases h
  | e :: t =>
    simp only [minByTimestamp, Option.some.injEq] at h
    obtain ⟨hmem, hbest, hall⟩ := foldlMin_spec t e
    subst h
    refine ⟨hmem, ?_⟩
    intro x hx
    rcases List.mem_cons.mp hx with rfl | hx'
    · exact hbest
    · exact hall x hx'

theorem minByTimestamp_isSome {c : Cache} (h : c ≠ []) :
    ∃ m, minByTimestamp c = some m := by
  match c, h with
  | e :: t, _ => exact ⟨_, rfl⟩

/-- When every stored timestamp is at most that of the last entry and the
initial segment is non-empty, the first minimal entry lies in the
initial segment — the appended entry is never selected. -/
theorem minByTimestamp_append_last {c : Cache} (lastE : CacheEntry)
    (hne : c ≠ []) (hle : ∀ e ∈ c, e.2.2 ≤ lastE.2.2) :
    ∃ m, minByTimestamp (c ++ [lastE]) = some m ∧ m ∈ c
      ∧ ∀ x ∈ c ++ [lastE], m.2.2 ≤ x.2.2 := by
  match c, hne with
  | e :: t, _ =>
    obtain ⟨hmem, hbest, hall⟩ := foldlMin_spec t e
    set best := t.foldl (fun best x => if x.2.2 < best.2.2 then x else best) e with hbdef
    have hbl : best.2.2 ≤ lastE.2.2 := hle best hmem
    have hnotlt : ¬ lastE.2.2 < best.2.2 := by omega
    refine ⟨best, ?_, hmem, ?_⟩
    · simp only [minByTimestamp, List.cons_append, List.foldl_append, List.foldl_cons,
        List.foldl_nil, ← hbdef, if_neg hnotlt]
    · intro x hx
      rcases List.mem_append.mp hx with hx' | hx'
      · rcases List.mem_cons.mp hx' with rfl | hx''
        · exact hbest
        · exact hall x hx''
      · rcases List.mem_singleton.mp hx' with rfl
        exact hbl

theorem dictInsert_length_le (c : Cache) (k : List Char) (v : SEOContext × Int) :
    (dictInsert c k v).length ≤ c.length + 1 := by
  unfold dictInsert
  split
  · rw [List.length_map]; omega
  · rw [List.length_append]; simp

theorem dictInsert_ne_nil (c : Cache) (k : List Char) (v : SEOContext × Int)
    (h : c ≠ []) : dictInsert c k v ≠ [] := by
  unfold dictInsert
  split
  · simpa using h
  · simp

theorem cache_context_len_le (cache : Option Cache) (context : SEOContext)
    (user_goal : List Char) (now : Int) (h : cacheLen cache ≤ 100) :
    cacheLen (_cache_context cache context user_goal now) ≤ 100 := by
  match cache with
  | none => simp [_cache_context, cacheLen]
  | some c =>
    unfold _cache_context
    dsimp only
    split
    · simpa [cacheLen] using h
    · rename_i hne
      have hlen : (dictInsert c (generate_cache_key context.keyword user_goal)
          (context, now)).length ≤ c.length + 1 := dictInsert_length_le ..
      split
      · rename_i hbig
        have hne' : dictInsert c (generate_cache_key context.keyword user_goal)
            (context, now) ≠ [] :=
          dictInsert_ne_nil _ _ _ (by simpa [List.isEmpty_iff] using hne)
        obtain ⟨m, hm⟩ := minByTimestamp_isSome hne'
        rw [hm]
        obtain ⟨hmem, -⟩ := minByTimestamp_spec hm
        have hdel := length_filter_lt_of_mem (p := fun e => !(decide (e.1 = m.1)))
          hmem (by simp)
        simp only [cacheLen, dictDelete]
        simp only [cacheLen] at h
        omega
      · rename_i hsmall
        simp only [cacheLen]
        omega

theorem get_cached_context_len_le (cache : Option Cache) (cache_ttl now : Int)
    (keyword user_goal : List Char) (h : cacheLen cache ≤ 100) :
    cacheLen (_get_cached_context cache cache_ttl now keyword user_goal).2 ≤ 100 := by
  match cache with
  | none => simp [_get_cached_context, cacheLen]
  | some c =>
    unfold _get_cached_context
    dsimp only
    split
    · simpa [cacheLen] using h
    · split
      · simpa [cacheLen] using h
      · split
        · simpa [cacheLen] using h
        · simp only [cacheLen, dictDelete] at h ⊢
          have := List.length_filter_le
            (fun e => !(decide (e.1 = generate_cache_key keyword user_goal))) c
          omega

theorem retrieve_context_len_le (retr : List Char → List Char → SEOContext)
    (cache : Option Cache) (cache_ttl now : Int) (keyword user_goal : List Char)
    (h : cacheLen cache ≤ 100) :
    cacheLen (retrieve_context retr cache cache_ttl now keyword user_goal).2.1 ≤ 100 := by
  have hget := get_cached_context_len_le cache cache_ttl now keyword user_goal h
  unfold retrieve_context
  cases heq : _get_cached_context cache cache_ttl now keyword user_goal with
  | mk fst snd =>
    rw [heq] at hget
    cases fst with
    | some cached => simpa using hget
    | none => simpa using cache_context_len_le snd (retr keyword user_goal) user_goal now hget

/-- C6: the cache-size invariant `≤ 100` is preserved by every cache
operation of the pipeline, and when `_cache_context` inserts a fresh
key into a cache whose timestamps do not exceed the new one, the entry
just inserted survives; when the cache held exactly 100 entries, the
evicted entry is one of the previously stored ones with the smallest
timestamp. -/
theorem c6_cache_bounded :
    (∀ cache context user_goal now, cacheLen cache ≤ 100 →
      cacheLen (_cache_context cache context user_goal now) ≤ 100)
    ∧ (∀ cache cache_ttl now keyword user_goal, cacheLen cache ≤ 100 →
      cacheLen (_get_cached_context cache cache_ttl now keyword user_goal).2 ≤ 100)
    ∧ (∀ retr cache cache_ttl now keyword user_goal, cacheLen cache ≤ 100 →
      cacheLen (retrieve_context retr cache cache_ttl now keyword user_goal).2.1 ≤ 100)
    ∧ (∀ (c : Cache) context user_goal now,
        c ≠ [] →
        (∀ e ∈ c, e.2.2 ≤ now) →
        c.any (fun e => decide (e.1 = generate_cache_key context.keyword user_goal)) = false →
        ((generate_cache_key context.keyword user_goal, context, now)
            ∈ (_cache_context (some c) context user_goal now).getD [])
        ∧ (c.length = 100 →
            ∃ oldest, oldest ∈ c ∧ (∀ e ∈ c, oldest.2.2 ≤ e.2.2)
              ∧ _cache_context (some c) context user_goal now
                  = some (dictDelete
                      (c ++ [(generate_cache_key context.keyword user_goal, context, now)])
                      oldest.1))) := by
  refine ⟨cache_context_len_le, get_cached_context_len_le, retrieve_context_len_le, ?_⟩
  intro c context user_goal now hne hts hnew
  set key := generate_cache_key context.keyword user_goal with hkey
  have hkeyne : ∀ e ∈ c, ¬ e.1 = key := by
    intro e he
    have := List.any_eq_false.mp hnew e he
    simpa using this
  have hins : dictInsert c key (context, now) = c ++ [(key, context, now)] := by
    unfold dictInsert
    rw [if_neg (by simp [hnew])]
  obtain ⟨m, hm, hmemc, hmin⟩ :=
    minByTimestamp_append_last (c := c) (key, context, now) hne
      (fun e he => hts e he)
  have hmkey : ¬ (key, context, now).1 = m.1 := by
    intro habs
    exact hkeyne m hmemc (by simpa using habs.symm)
  constructor
  · unfold _cache_context
    dsimp only
    rw [if_neg (by simpa [List.isEmpty_iff] using hne), ← hkey, hins]
    split
    · rw [hm]
      simp only [Option.getD_some]
      refine List.mem_filter.mpr ⟨List.mem_append_right _ (List.mem_singleton.mpr rfl), ?_⟩
      simp only [Bool.not_eq_eq_eq_not, Bool.not_true, decide_eq_false_iff_not]
      exact hmkey
    · simp
  · intro hlen
    refine ⟨m, hmemc, fun e he => hmin e (List.mem_append_left _ he), ?_⟩
    unfold _cache_context
    dsimp only
    rw [if_neg (by simpa [List.isEmpty_iff] using hne), ← hkey, hins,
      if_pos (by rw [List.length_append, hlen]; simp), hm]

/-- Witness for C6 at concrete inputs: an empty enabled cache for the
three preservation parts, and a one-entry cache receiving a fresh key
for the insertion-survival part. -/
theorem c6_cache_bounded_witness :
    cacheLen (_cache_context (some []) { keyword := "seo".data } [] 0) ≤ 100
    ∧ cacheLen (_get_cached_context (some []) 3600 0 "seo".data []).2 ≤ 100
    ∧ cacheLen (retrieve_context (fun kw goal => { keyword := kw, user_goal := goal })
        (some []) 3600 0 "seo".data []).2.1 ≤ 100
    ∧ ((generate_cache_key "ai".data [], ({ keyword := "ai".data } : SEOContext), 7)
        ∈ (_cache_context (some [("x".data, { keyword := "x".data }, 3)])
            { keyword := "ai".data } [] 7).getD []) :=
  ⟨(c6_cache_bounded.1 (some []) { keyword := "seo".data } [] 0 (by decide)),
   (c6_cache_bounded.2.1 (some []) 3600 0 "seo".data [] (by decide)),
   (c6_cache_bounded.2.2.1 (fun kw goal => { keyword := kw, user_goal := goal })
      (some []) 3600 0 "seo".data [] (by decide)),
   ((c6_cache_bounded.2.2.2 [("x".data, { keyword := "x".data }, 3)]
      { keyword := "ai".data } [] 7 (by decide) (by decide) (by decide)).1)⟩

/-! ## C9: `plan_content_calendar` (seo_pipeline.py) -/

/-- Content-type classifications (entity/__init__.py). -/
inductive ContentType
  | BLOG_POST
  | GUIDE
  | TUTORIAL
  | COMPARISON
  | LISTICLE
  | HOW_TO
  | REVIEW
deriving DecidableEq, Repr

/-- Helper for `pyTitle`: the flag records whether the next letter
starts a new word. -/
def pyTitleGo : Bool → List Char → List Char
  | _, [] => []
  | startWord, c :: t =>
    if c.isAlpha then (if startWord then c.toUpper else c.toLower) :: pyTitleGo false t
    else c :: pyTitleGo true t

/-- Model of Python `str.title()` (ASCII case mapping). -/
def pyTitle (s : List Char) : List Char := pyTitleGo true s

/-- Model of `SEOAssistantPipeline._calculate_keyword_priority`; the
float weights are modelled as exact rationals. -/
def _calculate_keyword_priority (context : SEOContext) : ℚ :=
  let intent_lower := pyLower context.search_intent
  let score : ℚ :=
    if listContainsSub "transactional".data intent_lower then 3
    else if listContainsSub "commercial".data intent_lower then 5/2
    else if listContainsSub "informational".data intent_lower then 2
    else 0
  score + context.content_opportunities.length * (1/10)
    + context.related_keywords.length * (1/20)
    + context.wikipedia_data.length * (1/5)

/-- Model of `SEOAssistantPipeline._suggest_content_type`. -/
def _suggest_content_type (context : SEOContext) : ContentType :=
  let keyword_lower := pyLower context.keyword
  if listContainsSub "how to".data keyword_lower then ContentType.HOW_TO
  else if listContainsSub "vs".data keyword_lower
      || listContainsSub "compare".data keyword_lower then ContentType.COMPARISON
  else if listContainsSub "best".data keyword_lower
      || listContainsSub "top".data keyword_lower then ContentType.LISTICLE
  else if listContainsSub "guide".data keyword_lower then ContentType.GUIDE
  else if listContainsSub "tutorial".data keyword_lower then ContentType.TUTORIAL
  else ContentType.BLOG_POST

/-- The `ContentCalendarItem` record (entity/__init__.py). -/
structure ContentCalendarItem where
  keyword : List Char
  title : List Char
  content_type : ContentType
  priority_score : ℚ
  estimated_difficulty : List Char
  target_week : Nat
  search_intent : SearchIntent := SearchIntent.INFORMATIONAL
deriving DecidableEq, Repr

/-- Ordering used to model the stable Python
`keyword_items.sort(key=lambda x: x.priority_score, reverse=True)`
(timsort and insertion sort are both stable, hence agree). -/
def priorityGe (a b : ContentCalendarItem) : Prop :=
  b.priority_score ≤ a.priority_score

instance : DecidableRel priorityGe :=
  fun a b => inferInstanceAs (Decidable (b.priority_score ≤ a.priority_score))

instance : IsTotal ContentCalendarItem priorityGe :=
  ⟨fun a b => le_total b.priority_score a.priority_score⟩

instance : IsTrans ContentCalendarItem priorityGe :=
  ⟨fun _ _ _ hab hbc => le_trans hbc hab⟩

/-- Model of `SEOAssistantPipeline.plan_content_calendar`; `retr` is the
per-keyword context retrieval (`retrieve_context`), returning `none`
when it raises (such keywords are skipped). Returns the calendar items
with their assigned target weeks. -/
def plan_content_calendar (retr : List Char → Option SEOContext)
    (keywords : List (List Char)) (timeframe_weeks : Nat) :
    List ContentCalendarItem :=
  let keyword_items := keywords.filterMap (fun keyword =>
    (retr keyword).map (fun context =>
      { keyword := keyword
        title := "Guide to ".data ++ pyTitle keyword
        content_type := _suggest_content_type context
        priority_score := _calculate_keyword_priority context
        estimated_difficulty := "Medium".data
        target_week := 1 }))
  let sorted := List.insertionSort priorityGe keyword_items
  let keywords_per_week := max 1 (sorted.length / timeframe_weeks)
  sorted.mapIdx (fun i item =>
    let week := i / keywords_per_week + 1
    { item with target_week := if timeframe_weeks < week then timeframe_weeks else week })

/-- The week assigned to sorted position `i`. -/
def calendarWeek (timeframe_weeks keywords_per_week i : Nat) : Nat :=
  let week := i / keywords_per_week + 1
  if timeframe_weeks < week then timeframe_weeks else week

theorem calendarWeek_bounds {timeframe_weeks : Nat} (kpw i : Nat)
    (htf : 1 ≤ timeframe_weeks) :
    1 ≤ calendarWeek timeframe_weeks kpw i
    ∧ calendarWeek timeframe_weeks kpw i ≤ timeframe_weeks := by
  unfold calendarWeek
  dsimp only
  generalize i / kpw = q
  constructor
  · split <;> omega
  · split <;> omega

theorem calendarWeek_mono (timeframe_weeks keywords_per_week : Nat) {i j : Nat}
    (hij : i ≤ j) :
    calendarWeek timeframe_weeks keywords_per_week i
      ≤ calendarWeek timeframe_weeks keywords_per_week j := by
  unfold calendarWeek
  have hdiv : i / keywords_per_week ≤ j / keywords_per_week :=
    Nat.div_le_div_right hij
  dsimp only
  split <;> split <;> omega

theorem plan_getElem (retr : List Char → Option SEOContext)
    (keywords : List (List Char)) (timeframe_weeks : Nat) {i : Nat}
    (hi : i < (plan_content_calendar retr keywords timeframe_weeks).length) :
    ∃ hs : i < (List.insertionSort priorityGe (keywords.filterMap (fun keyword =>
        (retr keyword).map (fun context =>
          { keyword := keyword
            title := "Guide to ".data ++ pyTitle keyword
            content_type := _suggest_content_type context
            priority_score := _calculate_keyword_priority context
            estimated_difficulty := "Medium".data
            target_week := 1 })))).length,
      (plan_content_calendar retr keywords timeframe_weeks).get ⟨i, hi⟩
        = { (List.insertionSort priorityGe (keywords.filterMap (fun keyword =>
              (retr keyword).map (fun context =>
                { keyword := keyword
                  title := "Guide to ".data ++ pyTitle keyword
                  content_type := _suggest_content_type context
                  priority_score := _calculate_keyword_priority context
                  estimated_difficulty := "Medium".data
                  target_week := 1 })))).get ⟨i, hs⟩ with
            target_week := calendarWeek timeframe_weeks
              (max 1 ((List.insertionSort priorityGe (keywords.filterMap (fun keyword =>
                (retr keyword).map (fun context =>
                  { keyword := keyword
                    title := "Guide to ".data ++ pyTitle keyword
                    content_type := _suggest_content_type context
                    priority_score := _calculate_keyword_priority context
                    estimated_difficulty := "Medium".data
                    target_week := 1 })))).length / timeframe_weeks)) i } := by
  have hs : i < (List.insertionSort priorityGe (keywords.filterMap (fun keyword =>
      (retr keyword).map (fun context =>
        { keyword := keyword
          title := "Guide to ".data ++ pyTitle keyword
          content_type := _suggest_content_type context
          priority_score := _calculate_keyword_priority context
          estimated_difficulty := "Medium".data
          target_week := 1 })))).length := by
    simpa [plan_content_calendar] using hi
  refine ⟨hs, ?_⟩
  simp [plan_content_calendar, List.get_eq_getElem, List.getElem_mapIdx, calendarWeek]

/-- C9: with `timeframe_weeks ≥ 1`, the target week of every planned item
lies in `[1, timeframe_weeks]`, and an item with strictly higher
priority score is never assigned a later week than one with lower
priority score. -/
theorem c9_plan_content_calendar_spec (retr : List Char → Option SEOContext)
    (keywords : List (List Char)) (timeframe_weeks : Nat)
    (htf : 1 ≤ timeframe_weeks) :
    (∀ item ∈ plan_content_calendar retr keywords timeframe_weeks,
      1 ≤ item.target_week ∧ item.target_week ≤ timeframe_weeks)
    ∧ (∀ (i j : Nat)
        (hi : i < (plan_content_calendar retr keywords timeframe_weeks).length)
        (hj : j < (plan_content_calendar retr keywords timeframe_weeks).length),
        ((plan_content_calendar retr keywords timeframe_weeks).get ⟨j, hj⟩).priority_score
            < ((plan_content_calendar retr keywords timeframe_weeks).get ⟨i, hi⟩).priority_score →
        ((plan_content_calendar retr keywords timeframe_weeks).get ⟨i, hi⟩).target_week
            ≤ ((plan_content_calendar retr keywords timeframe_weeks).get ⟨j, hj⟩).target_week) := by
  constructor
  · intro item hmem
    obtain ⟨i, hi, hget⟩ := List.mem_iff_getElem.mp hmem
    subst hget
    obtain ⟨hs, heq⟩ := plan_getElem retr keywords timeframe_weeks hi
    have heq2 : (plan_content_calendar retr keywords timeframe_weeks)[i] = _ := heq
    rw [heq2]
    dsimp only
    exact calendarWeek_bounds _ _ htf
  · intro i j hi hj hpr
    obtain ⟨hsi, heqi⟩ := plan_getElem retr keywords timeframe_weeks hi
    obtain ⟨hsj, heqj⟩ := plan_getElem retr keywords timeframe_weeks hj
    rw [heqi, heqj] at hpr ⊢
    dsimp only at hpr ⊢
    rcases le_or_lt i j with hij | hij
    · exact calendarWeek_mono _ _ hij
    · exfalso
      have hsorted := List.sorted_insertionSort priorityGe
        (keywords.filterMap (fun keyword =>
          (retr keyword).map (fun context =>
            ({ keyword := keyword
               title := "Guide to ".data ++ pyTitle keyword
               content_type := _suggest_content_type context
               priority_score := _calculate_keyword_priority context
               estimated_difficulty := "Medium".data
               target_week := 1 } : ContentCalendarItem))))
      have hrel := hsorted.rel_get_of_lt
        (a := ⟨j, hsj⟩) (b := ⟨i, hsi⟩) (Fin.mk_lt_mk.mpr hij)
      simp only [priorityGe] at hrel
      exact absurd hpr (not_lt.mpr hrel)

/-- Witness for C9 at a concrete input: two keywords over a 2-week
timeframe with a trivial context retriever. -/
theorem c9_plan_content_calendar_witness :
    (∀ item ∈ plan_content_calendar
        (fun kw => some { keyword := kw }) ["buy seo".data, "what is seo".data] 2,
      1 ≤ item.target_week ∧ item.target_week ≤ 2)
    ∧ (∀ (i j : Nat)
        (hi : i < (plan_content_calendar
          (fun kw => some { keyword := kw }) ["buy seo".data, "what is seo".data] 2).length)
        (hj : j < (plan_content_calendar
          (fun kw => some { keyword := kw }) ["buy seo".data, "what is seo".data] 2).length),
        ((plan_content_calendar
          (fun kw => some { keyword := kw }) ["buy seo".data, "what is seo".data] 2).get
            ⟨j, hj⟩).priority_score
            < ((plan_content_calendar
          (fun kw => some { keyword := kw }) ["buy seo".data, "what is seo".data] 2).get
            ⟨i, hi⟩).priority_score →
        ((plan_content_calendar
          (fun kw => some { keyword := kw }) ["buy seo".data, "what is seo".data] 2).get
            ⟨i, hi⟩).target_week
            ≤ ((plan_content_calendar
          (fun kw => some { keyword := kw }) ["buy seo".data, "what is seo".data] 2).get
            ⟨j, hj⟩).target_week) :=
  c9_plan_content_calendar_spec (fun kw => some { keyword := kw })
    ["buy seo".data, "what is seo".data] 2 (by omega)

/-! ## C1 and C2: keyword validation and the bulk endpoint (backend/main.py) -/

/-- An HTTP error response: status code and detail message. -/
abbrev HttpError := Nat × List Char

/-- An exception escaping a route body: a FastAPI `HTTPException` or any
other exception carrying a message. -/
inductive PyExc
  | httpExc (status : Nat) (detail : List Char)
  | exc (msg : List Char)
deriving DecidableEq, Repr

/-- Approximation of Python `str(e)` as used by the broad
`except Exception` handlers; the claims only require the presence of
some message string, not its exact rendering. -/
def pyExcStr : PyExc → List Char
  | .httpExc status detail => (toString status).data ++ ": ".data ++ detail
  | .exc msg => msg

/-- The keyword-validation block shared verbatim by `/seo/analyze`,
`/seo/brief` and `/seo/article`: falsy keyword → 400; stripped keyword
of length outside [2, 200] → 400; otherwise the stripped keyword. -/
def validate_keyword (keyword : List Char) : Except PyExc (List Char) :=
  if keyword.isEmpty then .error (.httpExc 400 "Keyword is required".data)
  else
    let k := pyStrip keyword
    if k.length < 2 || 200 < k.length then
      .error (.httpExc 400 "Keyword length must be between 2 and 200 characters".data)
    else .ok k

/-- The `analysis_data` dict of `/seo/analyze` (wikipedia sources as
title, url, relevance score triples). -/
structure AnalysisData where
  keyword : List Char
  search_intent : List Char
  related_keywords : List (List Char)
  content_opportunities : List (List Char)
  user_questions : List (List Char)
  wikipedia_sources : List (List Char × List Char × ℚ)
deriving DecidableEq, Repr

/-- Model of `POST /seo/analyze`; `retr` is
`pipeline.retrieve_context`, which may raise. Everything inside the
`try` — including the `HTTPException(400)` of the validation itself — is caught
by the broad `except Exception` and rewrapped as a 500. -/
def seo_analyze (retr : List Char → List Char → Except (List Char) SEOContext)
    (keyword goal : List Char) : Except HttpError AnalysisData :=
  let inner : Except PyExc AnalysisData :=
    match validate_keyword keyword with
    | .error e => .error e
    | .ok k =>
      match retr k goal with
      | .error msg => .error (.exc msg)
      | .ok context =>
        .ok { keyword := context.keyword
              search_intent := context.search_intent
              related_keywords := context.related_keywords.take 20
              content_opportunities := context.content_opportunities.take 15
              user_questions := context.user_questions.take 15
              wikipedia_sources := (context.wikipedia_data.take 10).map
                (fun d => (d.title, d.url, d.relevance_score)) }
  match inner with
  | .ok d => .ok d
  | .error e => .error (500, "Analysis failed: ".data ++ pyExcStr e)

/-- The `ContentBrief` record (entity/__init__.py); the `created_at`
datetime field is omitted (wall-clock only, used by no claim). -/
structure ContentBrief where
  keyword : List Char
  title : List Char
  meta_description : List Char
  outline : List (List Char)
  word_count_target : Nat
  internal_links : List (List Char) := []
  cta_suggestions : List (List Char) := []
  optimization_tips : List (List Char) := []
  content_type : ContentType := ContentType.BLOG_POST
deriving DecidableEq, Repr

/-- The `brief_data` dict of `/seo/brief`. -/
structure BriefData where
  title : List Char
  meta_description : List Char
  content_type : ContentType
  word_count_target : Nat
  outline : List (List Char)
  call_to_action : List Char
deriving DecidableEq, Repr

/-- Model of `POST /seo/brief`; `briefGen` is
`pipeline.generate_content_brief`. The serialization reads
`brief.call_to_action`, a field the entity `ContentBrief` does not have
(it has `cta_suggestions`), so a successfully generated brief still
raises `AttributeError` inside the `try`; like every other exception it
is rewrapped as a 500. -/
def seo_brief (briefGen : List Char → List Char → Except (List Char) ContentBrief)
    (keyword goal : List Char) : Except HttpError BriefData :=
  let inner : Except PyExc BriefData :=
    match validate_keyword keyword with
    | .error e => .error e
    | .ok k =>
      match briefGen k goal with
      | .error msg => .error (.exc msg)
      | .ok _brief =>
        .error (.exc "\x27ContentBrief\x27 object has no attribute \x27call_to_action\x27".data)
  match inner with
  | .ok d => .ok d
  | .error e => .error (500, "Brief generation failed: ".data ++ pyExcStr e)

/-- The task-info response of `/seo/article`. -/
structure ArticleTaskResp where
  task_id : List Char
  message : List Char
  status : List Char
deriving DecidableEq, Repr

/-- Model of `POST /seo/article`: validation only, outside any `try`, so
its `HTTPException(400)` reaches the client as a 400; on success a
background task is enqueued (the pipeline runs only later, inside the
task) and the task info is returned. `task_id` is the fresh uuid4. -/
def seo_article (task_id : List Char) (keyword _goal : List Char) :
    Except HttpError ArticleTaskResp :=
  match validate_keyword keyword with
  | .error (.httpExc s d) => .error (s, d)
  | .error (.exc m) => .error (500, m)
  | .ok k =>
    .ok { task_id := task_id
          message := "Article generation started for \x27".data ++ k ++ "\x27".data
          status := "processing".data }

/-- One entry of the list returned by
`SEOAssistantPipeline.bulk_process_keywords`. The Python dict has a
`title`/`word_count_target`/`content_brief` shape on success and an
`error` shape on failure; unused fields default. -/
structure BulkItem where
  keyword : List Char
  status : List Char
  title : List Char := []
  word_count_target : Nat := 0
  content_brief : Option ContentBrief := none
  error : List Char := []
deriving DecidableEq, Repr

/-- Model of `SEOAssistantPipeline.bulk_process_keywords`; `gen` is
`generate_content_brief`, which may raise per keyword. The loop appends
exactly one result per keyword. -/
def bulk_process_keywords (gen : List Char → Except (List Char) ContentBrief)
    (keywords : List (List Char)) : List BulkItem :=
  keywords.map (fun keyword =>
    match gen keyword with
    | .ok content_brief =>
      { keyword := keyword
        status := "success".data
        title := content_brief.title
        word_count_target := content_brief.word_count_target
        content_brief := some content_brief }
    | .error e =>
      { keyword := keyword, status := "failed".data, error := e })

/-- The `summary` dict of `/seo/bulk`; the float `success_rate` is
computed from these three counts and used by no claim, so it is
omitted. -/
structure BulkSummary where
  total_keywords : Nat
  successful : Nat
  failed : Nat
deriving DecidableEq, Repr

/-- The normalization applied by the bulk endpoint:
`[str(k).strip() for k in keywords if str(k).strip()]`. -/
def normalizeKeywords (keywords : List (List Char)) : List (List Char) :=
  keywords.filterMap (fun k =>
    let s := pyStrip k
    if s.isEmpty then none else some s)

/-- Model of `POST /seo/bulk` (backend/main.py): reject a falsy raw
list; normalize (strip entries, drop falsy ones); reject any normalized
keyword of length outside [2, 200]; reject more than 50 normalized
keywords; otherwise run the pipeline and summarize. -/
def seo_bulk (gen : List Char → Except (List Char) ContentBrief)
    (keywords : List (List Char)) : Except HttpError (BulkSummary × List BulkItem) :=
  if keywords.isEmpty then .error (400, "Keywords list is required".data)
  else
    let kws := normalizeKeywords keywords
    if kws.any (fun k => k.length < 2 || 200 < k.length) then
      .error (400, "Each keyword must be 2-200 characters".data)
    else if 50 < kws.length then
      .error (400, "Maximum 50 keywords allowed".data)
    else
      let results := bulk_process_keywords gen kws
      let successful := (results.filter (fun r => decide (r.status = "success".data))).length
      let failed := results.length - successful
      .ok ({ total_keywords := kws.length, successful := successful, failed := failed },
        results)

theorem normalizeKeywords_nil : normalizeKeywords [] = [] := rfl

/-- C1: whenever the normalized keyword list is non-empty, within the
length bounds and of size at most 50, `/seo/bulk` succeeds with exactly
one result per normalized keyword, each status is "success" or
"failed", and the summary satisfies
`successful + failed = total_keywords = |normalized list|`; a
normalized list of more than 50 keywords is rejected with HTTP 400
without invoking the pipeline. -/
theorem c1_seo_bulk_spec (gen : List Char → Except (List Char) ContentBrief)
    (keywords : List (List Char)) :
    (normalizeKeywords keywords ≠ [] →
     (∀ k ∈ normalizeKeywords keywords, 2 ≤ k.length ∧ k.length ≤ 200) →
     (normalizeKeywords keywords).length ≤ 50 →
      ∃ summary results,
        seo_bulk gen keywords = .ok (summary, results)
        ∧ results.map (fun r => r.keyword) = normalizeKeywords keywords
        ∧ (∀ r ∈ results, r.status = "success".data ∨ r.status = "failed".data)
        ∧ summary.total_keywords = (normalizeKeywords keywords).length
        ∧ summary.successful + summary.failed = summary.total_keywords)
    ∧ (50 < (normalizeKeywords keywords).length →
        (∃ detail, seo_bulk gen keywords = .error (400, detail))
        ∧ ∀ gen', seo_bulk gen keywords = seo_bulk gen' keywords) := by
  have hkeyne : normalizeKeywords keywords ≠ [] → ¬ keywords.isEmpty = true := by
    intro hne h
    rw [List.isEmpty_iff] at h
    subst h
    exact hne rfl
  constructor
  · intro hne hlen h50
    have hany : (normalizeKeywords keywords).any
        (fun k => k.length < 2 || 200 < k.length) = false := by
      rw [List.any_eq_false]
      intro k hk
      obtain ⟨h2, h200⟩ := hlen k hk
      simp only [Bool.or_eq_true, decide_eq_true_eq, not_or]
      omega
    have hbulk : seo_bulk gen keywords
        = .ok ({ total_keywords := (normalizeKeywords keywords).length,
                 successful := ((bulk_process_keywords gen (normalizeKeywords keywords)).filter
                    (fun r => decide (r.status = "success".data))).length,
                 failed := (bulk_process_keywords gen (normalizeKeywords keywords)).length
                    - ((bulk_process_keywords gen (normalizeKeywords keywords)).filter
                      (fun r => decide (r.status = "success".data))).length },
            bulk_process_keywords gen (normalizeKeywords keywords)) := by
      unfold seo_bulk
      rw [if_neg (hkeyne hne)]
      dsimp only
      rw [if_neg (by simp [hany]), if_neg (Nat.not_lt.mpr h50)]
    refine ⟨_, _, hbulk, ?_, ?_, rfl, ?_⟩
    · unfold bulk_process_keywords
      rw [List.map_map]
      conv_rhs => rw [← List.map_id (normalizeKeywords keywords)]
      apply List.map_congr_left
      intro kw _
      cases hg : gen kw <;> simp [Function.comp, hg]
    · intro r hr
      unfold bulk_process_keywords at hr
      obtain ⟨kw, -, hr⟩ := List.mem_map.mp hr
      cases hg : gen kw <;> rw [hg] at hr <;> subst hr
      · exact Or.inr rfl
      · exact Or.inl rfl
    · have hlenres : (bulk_process_keywords gen (normalizeKeywords keywords)).length
          = (normalizeKeywords keywords).length := by
        unfold bulk_process_keywords
        rw [List.length_map]
      have hfil := List.length_filter_le
        (fun r => decide (r.status = "success".data))
        (bulk_process_keywords gen (normalizeKeywords keywords))
      dsimp only at hfil hlenres ⊢
      omega
  · intro h50
    have hne : normalizeKeywords keywords ≠ [] := by
      intro h
      rw [h] at h50
      simp at h50
    refine ⟨?_, ?_⟩
    · unfold seo_bulk
      rw [if_neg (hkeyne hne)]
      dsimp only
      by_cases hany : (normalizeKeywords keywords).any
          (fun k => k.length < 2 || 200 < k.length) = true
      · rw [if_pos hany]
        exact ⟨_, rfl⟩
      · rw [if_neg hany, if_pos h50]
        exact ⟨_, rfl⟩
    · intro gen'
      unfold seo_bulk
      simp only [if_neg (hkeyne hne)]
      by_cases hany : (normalizeKeywords keywords).any
          (fun k => k.length < 2 || 200 < k.length) = true
      · simp only [if_pos hany]
      · simp only [if_neg hany, if_pos h50]

/-- Witness for C1 at a concrete input: one valid keyword and a
pipeline oracle that always fails (the counts still add up). -/
theorem c1_seo_bulk_witness :
    ∃ summary results,
      seo_bulk (fun _ => .error "no api key".data) ["seo basics".data] = .ok (summary, results)
      ∧ results.map (fun r => r.keyword) = normalizeKeywords ["seo basics".data]
      ∧ (∀ r ∈ results, r.status = "success".data ∨ r.status = "failed".data)
      ∧ summary.total_keywords = (normalizeKeywords ["seo basics".data]).length
      ∧ summary.successful + summary.failed = summary.total_keywords :=
  (c1_seo_bulk_spec (fun _ => .error "no api key".data) ["seo basics".data]).1
    (by decide) (by decide) (by decide)

theorem validate_keyword_invalid {keyword : List Char}
    (h : (pyStrip keyword).length < 2 ∨ 200 < (pyStrip keyword).length) :
    ∃ d, validate_keyword keyword = .error (.httpExc 400 d) := by
  unfold validate_keyword
  by_cases he : keyword.isEmpty = true
  · rw [if_pos he]
    exact ⟨_, rfl⟩
  · rw [if_neg he]
    dsimp only
    rw [if_pos (by simp only [Bool.or_eq_true, decide_eq_true_eq]; omega)]
    exact ⟨_, rfl⟩

/-- C2: a keyword whose stripped length falls outside [2, 200] is
rejected by `/seo/analyze`, `/seo/brief` (as 500, because their broad
`except` rewraps the `HTTPException(400)` of the validation itself) and by
`/seo/article` (as 400), in every case without invoking the pipeline; a
stripped keyword of length in [2, 200] passes the validation. -/
theorem c2_keyword_length_validation (keyword goal task_id : List Char) :
    ((pyStrip keyword).length < 2 ∨ 200 < (pyStrip keyword).length →
      (∀ retr, ∃ detail, seo_analyze retr keyword goal = .error (500, detail))
      ∧ (∀ retr retr', seo_analyze retr keyword goal = seo_analyze retr' keyword goal)
      ∧ (∀ briefGen, ∃ detail, seo_brief briefGen keyword goal = .error (500, detail))
      ∧ (∀ briefGen briefGen',
          seo_brief briefGen keyword goal = seo_brief briefGen' keyword goal)
      ∧ (∃ detail, seo_article task_id keyword goal = .error (400, detail)))
    ∧ (2 ≤ (pyStrip keyword).length → (pyStrip keyword).length ≤ 200 →
        validate_keyword keyword = .ok (pyStrip keyword)) := by
  constructor
  · intro hbad
    obtain ⟨d, hd⟩ := validate_keyword_invalid hbad
    refine ⟨?_, ?_, ?_, ?_, ?_⟩
    · intro retr
      unfold seo_analyze
      rw [hd]
      exact ⟨_, rfl⟩
    · intro retr retr'
      unfold seo_analyze
      rw [hd]
    · intro briefGen
      unfold seo_brief
      rw [hd]
      exact ⟨_, rfl⟩
    · intro briefGen briefGen'
      unfold seo_brief
      rw [hd]
    · unfold seo_article
      rw [hd]
      exact ⟨_, rfl⟩
  · intro h2 h200
    have hne : ¬ keyword.isEmpty = true := by
      intro he
      rw [List.isEmpty_iff] at he
      subst he
      simp [pyStrip] at h2
    unfold validate_keyword
    rw [if_neg hne]
    dsimp only
    rw [if_neg (by simp only [Bool.or_eq_true, decide_eq_true_eq]; omega)]

/-- Witness for C2 at concrete inputs: the one-character keyword "a"
(stripped length 1) is rejected by all three endpoints, and the keyword
" seo " (stripped length 3) passes validation. -/
theorem c2_keyword_length_validation_witness :
    ((∀ retr, ∃ detail, seo_analyze retr "a".data [] = .error (500, detail))
      ∧ (∀ retr retr', seo_analyze retr "a".data [] = seo_analyze retr' "a".data [])
      ∧ (∀ briefGen, ∃ detail, seo_brief briefGen "a".data [] = .error (500, detail))
      ∧ (∀ briefGen briefGen',
          seo_brief briefGen "a".data [] = seo_brief briefGen' "a".data [])
      ∧ (∃ detail, seo_article "t1".data "a".data [] = .error (400, detail)))
    ∧ validate_keyword " seo ".data = .ok (pyStrip " seo ".data) :=
  ⟨(c2_keyword_length_validation "a".data [] "t1".data).1 (by decide),
   (c2_keyword_length_validation " seo ".data [] "t1".data).2 (by decide) (by decide)⟩

/-! ## C3 and C4: JWT authentication (backend/auth.py, /auth/register, /auth/login) -/

/-- The JWT payload as used by the backend (claims `sub`, `email`,
`full_name`, `exp`; `exp` is a Unix timestamp in seconds). -/
structure JwtPayload where
  sub : Option (List Char) := none
  email : Option (List Char) := none
  full_name : Option (List Char) := none
  exp : Int
deriving DecidableEq, Repr

/-- Model of an encoded bearer token as the external PyJWT library sees
it: undecodable garbage, or a payload signed (HS256) with some key. -/
inductive JwtToken
  | malformed (raw : List Char)
  | signed (key : List Char) (payload : JwtPayload)
deriving DecidableEq, Repr

/-- The PyJWT failure modes relevant here; every one of them is a
`jwt.PyJWTError` subclass. -/
inductive JwtError
  | decodeError
  | invalidSignature
  | expiredSignature
deriving DecidableEq, Repr

/-- Model of the external `jwt.decode(token, key, algorithms=["HS256"])`
with signature check and `exp` validation (PyJWT rejects
`exp ≤ now` at zero leeway). -/
def jwt_decode (tok : JwtToken) (key : List Char) (now : Int) :
    Except JwtError JwtPayload :=
  match tok with
  | .malformed _ => .error .decodeError
  | .signed k payload =>
    if k ≠ key then .error .invalidSignature
    else if payload.exp ≤ now then .error .expiredSignature
    else .ok payload

/-- Model of the external `jwt.encode(payload, key, algorithm="HS256")`. -/
def jwt_encode (payload : JwtPayload) (key : List Char) : JwtToken :=
  .signed key payload

def ACCESS_TOKEN_EXPIRE_MINUTES : Int := 30

/-- Model of `AuthManager.create_access_token` with `expires_delta=None`
(as the login route calls it): the payload field `exp` is set to 30 minutes
after issuance. -/
def create_access_token (data : JwtPayload) (secret : List Char) (now : Int) : JwtToken :=
  jwt_encode { data with exp := now + ACCESS_TOKEN_EXPIRE_MINUTES * 60 } secret

/-- The user dict produced by `get_current_user`. -/
structure AuthUser where
  id : List Char
  email : List Char
  full_name : List Char
  is_active : Bool
deriving DecidableEq, Repr

/-- Model of `get_current_user`: decode the bearer token; any
`PyJWTError` → 401; a missing `sub` → 401 (that `HTTPException` is
raised inside the `try` but is no `PyJWTError`, so it propagates);
otherwise the mock user derived from the payload. -/
def get_current_user (tok : JwtToken) (secret : List Char) (now : Int) :
    Except HttpError AuthUser :=
  match jwt_decode tok secret now with
  | .error _ => .error (401, "Invalid authentication token".data)
  | .ok payload =>
    match payload.sub with
    | none => .error (401, "Invalid authentication token".data)
    | some user_id =>
      .ok { id := user_id
            email := payload.email.getD []
            full_name := payload.full_name.getD []
            is_active := true }

/-- Model of `get_current_active_user` (the dependency of every
protected endpoint). -/
def get_current_active_user (tok : JwtToken) (secret : List Char) (now : Int) :
    Except HttpError AuthUser :=
  match get_current_user tok secret now with
  | .error e => .error e
  | .ok u => if !u.is_active then .error (400, "Inactive user".data) else .ok u

/-- C3: a malformed token, or one whose `exp` lies in the past, is
rejected with 401 by the authentication dependency; a token signed with
the configured secret, unexpired, and carrying a non-null `sub` is
accepted. -/
theorem c3_get_current_user_auth (secret : List Char) (now : Int) :
    (∀ raw, get_current_active_user (.malformed raw) secret now
      = .error (401, "Invalid authentication token".data))
    ∧ (∀ key payload, payload.exp < now →
        ∃ d, get_current_active_user (.signed key payload) secret now = .error (401, d))
    ∧ (∀ payload user_id, payload.sub = some user_id → now < payload.exp →
        get_current_active_user (.signed secret payload) secret now
          = .ok { id := user_id
                  email := payload.email.getD []
                  full_name := payload.full_name.getD []
                  is_active := true }) := by
  refine ⟨fun raw => rfl, ?_, ?_⟩
  · intro key payload hexp
    unfold get_current_active_user get_current_user jwt_decode
    dsimp only
    by_cases hk : key = secret
    · rw [if_neg (by simpa using hk), if_pos (by omega)]
      exact ⟨_, rfl⟩
    · rw [if_pos (by simpa using hk)]
      exact ⟨_, rfl⟩
  · intro payload user_id hsub hexp
    unfold get_current_active_user get_current_user jwt_decode
    dsimp only
    rw [if_neg (by simp), if_neg (by omega)]
    dsimp only
    rw [hsub]
    rfl

/-- Witness for C3 at concrete inputs: an expired token is rejected and
a fresh, well-signed token with `sub = "u1"` is accepted. -/
theorem c3_get_current_user_auth_witness :
    (get_current_active_user (.malformed "garbage".data) "secret".data 1000
      = .error (401, "Invalid authentication token".data))
    ∧ (∃ d, get_current_active_user
        (.signed "secret".data { sub := some "u1".data, exp := 500 }) "secret".data 1000
        = .error (401, d))
    ∧ (get_current_active_user
        (.signed "secret".data { sub := some "u1".data, exp := 2800 }) "secret".data 1000
        = .ok { id := "u1".data, email := [], full_name := [], is_active := true }) :=
  ⟨(c3_get_current_user_auth "secret".data 1000).1 "garbage".data,
   (c3_get_current_user_auth "secret".data 1000).2.1 "secret".data
      { sub := some "u1".data, exp := 500 } (by decide),
   (c3_get_current_user_auth "secret".data 1000).2.2
      { sub := some "u1".data, exp := 2800 } "u1".data rfl (by decide)⟩

/-- A bcrypt hash as stored by passlib: salt plus digest. The digest is
modelled as the password truncated to bcrypt's 72-byte limit (the
one-way property is irrelevant to the claims; only the
re-hash-and-compare behaviour of `verify` matters). -/
structure BcryptHash where
  salt : Nat
  digest : List Char
deriving DecidableEq, Repr

/-- Model of `AuthManager.hash_password` (`pwd_context.hash`); the salt
drawn by bcrypt is passed explicitly. -/
def hash_password (salt : Nat) (password : List Char) : BcryptHash :=
  { salt := salt, digest := password.take 72 }

/-- Model of `AuthManager.verify_password` (`pwd_context.verify`):
re-hash the candidate under the stored salt and compare digests. -/
def verify_password (password : List Char) (h : BcryptHash) : Bool :=
  decide ((hash_password h.salt password).digest = h.digest)

/-- A row of the sqlite `users` table (`created_at`/`is_active` defaults
omitted; used by no claim). -/
structure UserRec where
  id : List Char
  email : List Char
  password_hash : BcryptHash
  full_name : List Char
deriving DecidableEq, Repr

/-- Model of `DatabaseManager.get_user_by_email`: first row matching the
email. -/
def get_user_by_email (db : List UserRec) (email : List Char) : Option UserRec :=
  db.find? (fun u => decide (u.email = email))

/-- Model of `DatabaseManager.create_user`: the UNIQUE constraint on
email raises `IntegrityError` when the email exists; otherwise the row
is inserted under the fresh uuid4 `user_id`. -/
def db_create_user (db : List UserRec) (user_id email full_name : List Char)
    (password_hash : BcryptHash) : Except (List Char) (List UserRec × UserRec) :=
  if db.any (fun u => decide (u.email = email)) then
    .error "UNIQUE constraint failed: users.email".data
  else
    let u : UserRec :=
      { id := user_id, email := email, password_hash := password_hash,
        full_name := full_name }
    .ok (db ++ [u], u)

/-- Model of `POST /auth/register`: all three fields required (the
`HTTPException(400)` and any other exception are both turned into a
400 by the `except` of the route), then hash the password and insert the
user. Returns the updated table and the created row. -/
def register_user (db : List UserRec) (salt : Nat) (user_id : List Char)
    (email password full_name : List Char) :
    Except HttpError (List UserRec × UserRec) :=
  if email.isEmpty || password.isEmpty || full_name.isEmpty then
    .error (400, "email, password and full_name are required".data)
  else
    match db_create_user db user_id email full_name (hash_password salt password) with
    | .error msg => .error (400, msg)
    | .ok r => .ok r

/-- Model of `AuthManager.authenticate_user`. -/
def authenticate_user (db : List UserRec) (email password : List Char) :
    Option UserRec :=
  match get_user_by_email db email with
  | none => none
  | some user => if verify_password password user.password_hash then some user else none

/-- The `TokenResponse` of `/auth/login` (`token_type` is the constant
"bearer"). -/
structure TokenResponse where
  access_token : JwtToken
  expires_in : Nat
deriving DecidableEq, Repr

/-- Model of `POST /auth/login`: authenticate, then issue a token whose
`sub` is the id of the user; failure is a 401. -/
def login_user (db : List UserRec) (secret : List Char) (now : Int)
    (email password : List Char) : Except HttpError TokenResponse :=
  match authenticate_user db email password with
  | none => .error (401, "Invalid credentials".data)
  | some user =>
    .ok { access_token := create_access_token
            { sub := some user.id, email := some user.email,
              full_name := some user.full_name, exp := 0 } secret now
          expires_in := 1800 }

/-- C4: after a successful registration, logging in with the same email
and password yields a token that decodes under the configured secret to
`sub` = the id of the registered user, with expiry 30 minutes (1800 s) after
issuance; and `verify_password(p, hash_password(p))` holds for every
password. -/
theorem c4_register_login_roundtrip (db : List UserRec) (salt : Nat)
    (user_id secret email password full_name : List Char) (now : Int)
    {db' : List UserRec} {created : UserRec}
    (hreg : register_user db salt user_id email password full_name = .ok (db', created)) :
    (∃ tr : TokenResponse,
      login_user db' secret now email password = .ok tr
      ∧ tr.expires_in = 1800
      ∧ jwt_decode tr.access_token secret now
          = .ok { sub := some created.id, email := some created.email,
                  full_name := some created.full_name, exp := now + 1800 }
      ∧ created.id = user_id)
    ∧ (∀ (p : List Char) (s : Nat), verify_password p (hash_password s p) = true) := by
  unfold register_user at hreg
  by_cases hfields : (email.isEmpty || password.isEmpty || full_name.isEmpty) = true
  · rw [if_pos hfields] at hreg
    cases hreg
  · rw [if_neg hfields] at hreg
    unfold db_create_user at hreg
    by_cases hfresh : (db.any fun u => decide (u.email = email)) = true
    · rw [if_pos hfresh] at hreg
      cases hreg
    · rw [if_neg hfresh] at hreg
      dsimp only at hreg
      rw [Except.ok.injEq, Prod.mk.injEq] at hreg
      obtain ⟨hdb', hcreated⟩ := hreg
      subst hdb'
      subst hcreated
      constructor
      · have hfind : get_user_by_email
            (db ++ [{ id := user_id, email := email,
                      password_hash := hash_password salt password,
                      full_name := full_name }]) email
            = some { id := user_id, email := email,
                     password_hash := hash_password salt password,
                     full_name := full_name } := by
          unfold get_user_by_email
          rw [List.find?_append]
          have hnone : db.find? (fun u => decide (u.email = email)) = none := by
            rw [List.find?_eq_none]
            intro u hu
            have hfalse := List.any_eq_false.mp
              (Bool.eq_false_iff.mpr (fun habs => hfresh habs)) u hu
            simpa using hfalse
          rw [hnone]
          simp
        have hlogin : login_user
            (db ++ [{ id := user_id, email := email,
                      password_hash := hash_password salt password,
                      full_name := full_name }]) secret now email password
            = .ok ⟨create_access_token ⟨some user_id, some email, some full_name, 0⟩
                secret now, 1800⟩ := by
          unfold login_user authenticate_user
          rw [hfind]
          dsimp only
          rw [if_pos (by unfold verify_password hash_password; simp)]
        have hdecode : jwt_decode
            (create_access_token ⟨some user_id, some email, some full_name, 0⟩ secret now)
            secret now
            = .ok ⟨some user_id, some email, some full_name, now + 1800⟩ := by
          unfold create_access_token jwt_encode jwt_decode ACCESS_TOKEN_EXPIRE_MINUTES
          dsimp only
          rw [if_neg (by simp), if_neg (by omega)]
          norm_num
        exact ⟨_, hlogin, rfl, hdecode, rfl⟩
      · intro p s
        unfold verify_password hash_password
        simp

/-- Witness for C4 at concrete inputs: registering "a@b.c" in an empty
table and logging in returns a valid token for the fresh user id. -/
theorem c4_register_login_roundtrip_witness :
    (∃ tr : TokenResponse,
      login_user [{ id := "u1".data, email := "a@b.c".data,
                    password_hash := hash_password 7 "pw".data,
                    full_name := "Ada".data }] "secret".data 0 "a@b.c".data "pw".data
        = .ok tr
      ∧ tr.expires_in = 1800
      ∧ jwt_decode tr.access_token "secret".data 0
          = .ok { sub := some "u1".data, email := some "a@b.c".data,
                  full_name := some "Ada".data, exp := 0 + 1800 }
      ∧ "u1".data = "u1".data)
    ∧ (∀ (p : List Char) (s : Nat), verify_password p (hash_password s p) = true) :=
  c4_register_login_roundtrip [] 7 "u1".data "secret".data "a@b.c".data "pw".data
    "Ada".data 0 (by rfl)

end SmartSeo
